import Mathlib

/-!
Shallow embedding of the clipboard-history engine and double-tap gesture
detector of the `recall` repository (Rust sources `src-tauri/src/lib.rs`
and `src/main.rs`), together with theorems settling the frozen claims
about them.

Modelling conventions:
* `DateTime<Local>` timestamps are modelled as `Nat` (only their total
  order and equality are used by the code: `sort_by(timestamp.cmp)`,
  `to_rfc3339` equality as an identity key).
* `Instant`s in the gesture detector are `Nat` milliseconds;
  `Instant::duration_since` saturates at zero, matching `Nat`
  subtraction.
* The persisted file is `FileState := Option (List FileLine)`: `none`
  is a missing/unopenable file, and each line of an existing file
  either fails to be read at all (`FileLine.readError`, an `io::Error`
  from `BufReader::lines`, e.g. invalid UTF-8), reads but fails
  `serde_json::from_str` (`FileLine.malformed`), or parses to an entry
  (`FileLine.record`).  `save_history` writes one well-formed line per
  entry, which models the fact that serialisation always produces a
  line that reads and parses back.
* Rust `Vec::sort_by` is a stable sort; `List.insertionSort` is the
  stable sort used here (it is kernel-computable, unlike
  `List.mergeSort`).  None of the theorems below depend on stability:
  they use only that the result is sorted and a permutation of the
  input.
-/

/-- Entry of the clipboard history (lib.rs lines 26-32): capture
timestamp, captured text, and the pin flag (`#[serde(default)]`, so it
defaults to `false`). -/
structure ClipboardEntry where
  timestamp : Nat
  content : String
  pinned : Bool
deriving DecidableEq, Repr

/-- Response of the `get_history` command (lib.rs lines 34-38). -/
structure HistoryResponse where
  entries : List ClipboardEntry
  max_entries : Nat
deriving DecidableEq, Repr

/-- Retention cap, lib.rs line 40: `const MAX_HISTORY_ENTRIES: usize = 200`. -/
def MAX_HISTORY_ENTRIES : Nat := 200

/-- Double-tap window, lib.rs line 41: `const DOUBLE_TAP_THRESHOLD_MS: u128 = 400`. -/
def DOUBLE_TAP_THRESHOLD_MS : Nat := 400

/-- Comparison used by `history.sort_by(|a, b| a.timestamp.cmp(&b.timestamp))`. -/
def tsle (a b : ClipboardEntry) : Prop := a.timestamp ≤ b.timestamp

instance : DecidableRel tsle := fun a b => Nat.decLe a.timestamp b.timestamp

instance : IsTotal ClipboardEntry tsle := ⟨fun a b => Nat.le_total a.timestamp b.timestamp⟩

instance : IsTrans ClipboardEntry tsle := ⟨fun _ _ _ hab hbc => Nat.le_trans hab hbc⟩

/-- Unpinned entries surviving the trim, lib.rs lines 80-89: of the
unpinned entries, keep only the last `cap - pinned.len()` (saturating
subtraction, lib.rs line 83) in list order — `split_off(start)` keeps
the suffix. -/
def trim_kept (cap : Nat) (history : List ClipboardEntry) : List ClipboardEntry :=
  let unpinned := history.filter (fun e => !e.pinned)
  let unpinned_limit := cap - (history.filter (fun e => e.pinned)).length
  if unpinned.length > unpinned_limit then unpinned.drop (unpinned.length - unpinned_limit)
  else unpinned

/-- Trim step of `save_entry`, lib.rs lines 76-97: when the list exceeds
the cap, keep every pinned entry and only the `trim_kept` suffix of the
unpinned ones, and re-sort the reassembled list by timestamp with a
stable sort.  When the list is within the cap it is returned unchanged
(the `sort_by` sits inside the `if`). -/
def save_entry_trim (cap : Nat) (history : List ClipboardEntry) : List ClipboardEntry :=
  if history.length > cap then
    List.insertionSort tsle (trim_kept cap history ++ history.filter (fun e => e.pinned))
  else history

/-- Store-level core of `save_entry`, lib.rs lines 58-100: look up the
pinned flag of the first existing entry with the same content
(`find`, defaulting to `false`), drop every entry with that content
(`retain`), append a fresh entry carrying the caller's timestamp and
content but the carried-over pinned flag, then trim.  The surrounding
file I/O (`load_history` / `save_history`) is factored out. -/
def save_entry (cap : Nat) (entry : ClipboardEntry) (history0 : List ClipboardEntry) :
    List ClipboardEntry :=
  let existing_pinned :=
    ((history0.find? (fun e => e.content == entry.content)).map (fun e => e.pinned)).getD false
  let retained := history0.filter (fun e => e.content != entry.content)
  save_entry_trim cap (retained ++ [⟨entry.timestamp, entry.content, existing_pinned⟩])

/-- Sequence of `record(content, timestamp)` calls applied to a store,
each constructed the way the clipboard monitor constructs entries
(lib.rs lines 216-220: caller-side `pinned: false`). -/
def recordAll (cap : Nat) (calls : List (String × Nat)) (h : List ClipboardEntry) :
    List ClipboardEntry :=
  calls.foldl (fun acc ct => save_entry cap ⟨ct.2, ct.1, false⟩ acc) h

/-- One line of the persisted history file, as the `load_history`
iterator chains observe it: the line read itself can fail with an
`io::Error` (`BufReader::lines` yields `Err`, e.g. on invalid UTF-8),
or the read line fails `serde_json::from_str`, or it parses to an
entry. -/
inductive FileLine where
  | readError
  | malformed
  | record (e : ClipboardEntry)
deriving DecidableEq, Repr

/-- Whether `BufReader::lines` delivers this line as `Ok`. -/
def FileLine.readable : FileLine → Bool
  | FileLine.readError => false
  | _ => true

/-- Parse result of a successfully read line:
`serde_json::from_str(&line).ok()`. -/
def parse_line : FileLine → Option ClipboardEntry
  | FileLine.record e => some e
  | _ => none

/-- Persisted state of the history file: `none` when the file is
missing or cannot be opened, otherwise the list of its lines. -/
abbrev FileState := Option (List FileLine)

/-- Model of `load_history`, lib.rs lines 116-128: a missing or
unopenable file yields `[]`; otherwise `lines().map_while(Result::ok)`
consumes lines only while they read successfully — the first read
error ends the iteration, dropping it and every later line — and
`filter_map(|line| serde_json::from_str(&line).ok())` keeps the lines
that parse, skipping malformed ones individually. -/
def load_history : FileState → List ClipboardEntry
  | none => []
  | some lines => (lines.takeWhile FileLine.readable).filterMap parse_line

/-- Model of the earlier generation's `load_history`, main.rs lines
47-59: identical except that read errors are skipped per line
(`filter_map(|line| line.ok())`) instead of ending the iteration. -/
def load_history_main : FileState → List ClipboardEntry
  | none => []
  | some lines => (lines.filter FileLine.readable).filterMap parse_line

/-- Model of `save_history`, lib.rs lines 102-114: the file is
truncated and rewritten with one JSON line per entry; each written
line reads and parses back to its entry. -/
def save_history (history : List ClipboardEntry) : FileState :=
  some (history.map FileLine.record)

/-- Model of the `get_history` command, lib.rs lines 130-138: load,
reverse in place, and return together with the cap. -/
def get_history (fs : FileState) : HistoryResponse :=
  { entries := (load_history fs).reverse, max_entries := MAX_HISTORY_ENTRIES }

/-- Mutation performed by `toggle_pin`'s `iter_mut().find(..)`
(lib.rs lines 152-156): set the pinned flag of the first entry whose
timestamp key matches, leaving everything else unchanged. -/
def set_pin_first (key : Nat) (p : Bool) : List ClipboardEntry → List ClipboardEntry
  | [] => []
  | e :: rest =>
    if e.timestamp = key then { e with pinned := p } :: rest
    else e :: set_pin_first key p rest

/-- Model of the `toggle_pin` command, lib.rs lines 147-162: locate the
first entry whose timestamp identity matches the key (`to_rfc3339`
string equality, modelled as timestamp equality), fail with
`"Entry not found"` when there is none — in which case the command
returns before `save_history`, so the file is unchanged — otherwise
update the flag and persist.  The result pairs the file state after
the command with the command's `Result`. -/
def toggle_pin (key : Nat) (p : Bool) (fs : FileState) : FileState × Except String Unit :=
  let history := load_history fs
  if history.any (fun e => e.timestamp == key) then
    (save_history (set_pin_first key p history), Except.ok ())
  else
    (fs, Except.error "Entry not found")

/-- Model of the `clear_all_history` command, lib.rs lines 164-178:
keep only the pinned entries; when none remain the file is removed
(`none`), otherwise the pinned remainder is persisted. -/
def clear_all_history (fs : FileState) : FileState :=
  let history := load_history fs
  let pinned := history.filter (fun e => e.pinned)
  if pinned.isEmpty then none
  else save_history pinned

/-- Shared state of the `start_hotkey_listener` monitors, lib.rs lines
371-373: `OPTION_WAS_PRESSED`, `LAST_OPTION_RELEASE`, `LAST_TRIGGER`. -/
structure GestureState where
  option_was_pressed : Bool
  last_option_release : Option Nat
  last_trigger : Option Nat
deriving DecidableEq, Repr

/-- Initial gesture state: statics start as `false` / `None` / `None`. -/
def initGesture : GestureState :=
  { option_was_pressed := false, last_option_release := none, last_trigger := none }

/-- One `FlagsChanged` event on the global monitor channel, lib.rs
lines 382-411.  Input: whether the Option modifier is asserted in the
event's flags, and the instant `now` (ms).  Output: the new shared
state and whether the double-tap trigger fired.  When a pending release
exists but the gap is at or above the threshold, the `return` inside
the `if` is not taken and execution falls through to
`*last_release = Some(now)`. -/
def global_flags_step (s : GestureState) (option_pressed : Bool) (now : Nat) :
    GestureState × Bool :=
  if option_pressed then ({ s with option_was_pressed := true }, false)
  else if s.option_was_pressed then
    match s.last_option_release with
    | some last =>
      if now - last < DOUBLE_TAP_THRESHOLD_MS then
        ({ option_was_pressed := false, last_option_release := none, last_trigger := some now },
          true)
      else
        ({ s with option_was_pressed := false, last_option_release := some now }, false)
    | none => ({ s with option_was_pressed := false, last_option_release := some now }, false)
  else (s, false)

/-- One `FlagsChanged` event on the local monitor channel, lib.rs lines
419-450.  Identical to the global monitor except in one case: when a
pending release exists but the gap is at or above the threshold, the
local block's `if elapsed < DOUBLE_TAP_THRESHOLD_MS { .. }` has no else
branch and the `else { *last_release = Some(now) }` is attached to the
`if let Some(last)`, so `last_option_release` is left unchanged instead
of being set to `now`. -/
def local_flags_step (s : GestureState) (option_pressed : Bool) (now : Nat) :
    GestureState × Bool :=
  if option_pressed then ({ s with option_was_pressed := true }, false)
  else if s.option_was_pressed then
    match s.last_option_release with
    | some last =>
      if now - last < DOUBLE_TAP_THRESHOLD_MS then
        ({ option_was_pressed := false, last_option_release := none, last_trigger := some now },
          true)
      else
        ({ s with option_was_pressed := false }, false)
    | none => ({ s with option_was_pressed := false, last_option_release := some now }, false)
  else (s, false)

/-- Run a stream of `(option_pressed, instant)` flag-change events
through one monitor channel, collecting the instants at which the
trigger fired. -/
def run_flags (step : GestureState → Bool → Nat → GestureState × Bool) :
    List (Bool × Nat) → GestureState → GestureState × List Nat
  | [], s => (s, [])
  | (p, t) :: rest, s =>
    let out := step s p t
    let tail := run_flags step rest out.1
    (tail.1, if out.2 then t :: tail.2 else tail.2)

/-- Raw `rdev` events as seen by the `main.rs` hotkey callback
(main.rs lines 317-335): only a `KeyRelease` of `Alt`/`AltGr` is acted
on; every other event (including presses of non-modifier keys) falls
through the `if let`/`matches!` filters. -/
inductive RdevEvent where
  | keyReleaseAlt
  | keyPressAlt
  | keyPressOther
  | keyReleaseOther
  | otherEvent
deriving DecidableEq, Repr

/-- One event through the `main.rs` hotkey callback, main.rs lines
317-335.  State is `last_alt_release`; the result records the new
state and whether the double-tap channel send happened.  On a
qualifying release: fire and clear when a pending release lies within
the threshold, otherwise record this release as the new baseline.
Every non-(Alt-release) event leaves the state untouched. -/
def rdev_callback_step (last_alt_release : Option Nat) (ev : RdevEvent) (now : Nat) :
    Option Nat × Bool :=
  match ev with
  | .keyReleaseAlt =>
    match last_alt_release with
    | some last_time =>
      if now - last_time < DOUBLE_TAP_THRESHOLD_MS then (none, true)
      else (some now, false)
    | none => (some now, false)
  | _ => (last_alt_release, false)

/-- Run a stream of `(event, instant)` pairs through the `main.rs`
hotkey callback, collecting the instants at which the trigger fired. -/
def run_rdev : List (RdevEvent × Nat) → Option Nat → Option Nat × List Nat
  | [], last => (last, [])
  | (ev, t) :: rest, last =>
    let out := rdev_callback_step last ev t
    let tail := run_rdev rest out.1
    (tail.1, if out.2 then t :: tail.2 else tail.2)

/-- State owned by the clipboard monitor thread, lib.rs lines 197-235:
the `last_content` baseline and (abstracting the history file) the
store contents. -/
structure MonitorState where
  last_content : Option String
  store : List ClipboardEntry
deriving DecidableEq, Repr

/-- One iteration of the clipboard monitor loop, lib.rs lines 208-233.
`read` is the result of `clipboard.get_text()` (`none` = `Err`, skipped
entirely); `save_ok` models whether `save_entry`'s file write succeeded
(on failure the error is only logged); `now` is the wall clock.  New
non-empty content is recorded and `last_content` is set to it whether
or not the save succeeded; an empty read or an unchanged read changes
nothing. -/
def monitor_step (cap : Nat) (read : Option String) (save_ok : Bool) (now : Nat)
    (s : MonitorState) : MonitorState :=
  match read with
  | none => s
  | some current =>
    let is_new :=
      match s.last_content with
      | some last => last != current
      | none => true
    if is_new && !current.isEmpty then
      { last_content := some current,
        store :=
          if save_ok then save_entry cap ⟨now, current, false⟩ s.store else s.store }
    else s

/-- Strict timestamp order between entries, the order in which reachable
stores are kept. -/
def tslt (a b : ClipboardEntry) : Prop := a.timestamp < b.timestamp

instance : DecidableRel tslt := fun a b => Nat.decLt a.timestamp b.timestamp

/-- Pinned flag carried over by `save_entry`, lib.rs lines 61-66: the
flag of the first existing entry with the given content, `false` when
there is none. -/
def carried_pinned (h : List ClipboardEntry) (c : String) : Bool :=
  ((h.find? (fun e => e.content == c)).map (fun e => e.pinned)).getD false

/-- Starting store for the C2 counterexample: 200 entries of content
`"a"`, timestamps 200 down to 1 (newest first in list order), all
unpinned — within the cap of 200. -/
def c2_store : List ClipboardEntry := (List.range 200).map (fun i => ⟨200 - i, "a", false⟩)

/-- Store after recording `"b"` at timestamp 1000 into `c2_store`. -/
def c2_result : List ClipboardEntry := save_entry MAX_HISTORY_ENTRIES ⟨1000, "b", false⟩ c2_store

theorem trim_kept_sublist (cap : Nat) (h : List ClipboardEntry) :
    (trim_kept cap h).Sublist (h.filter (fun e => !e.pinned)) := by
  simp only [trim_kept]
  split
  · exact List.drop_sublist _ _
  · exact List.Sublist.refl _

theorem trim_kept_length (cap : Nat) (h : List ClipboardEntry) :
    (trim_kept cap h).length =
      min (h.filter (fun e => !e.pinned)).length
        (cap - (h.filter (fun e => e.pinned)).length) := by
  simp only [trim_kept]
  split
  · rename_i hgt
    rw [List.length_drop]
    omega
  · rename_i hle
    omega

theorem unpinned_append_pinned_perm (h : List ClipboardEntry) :
    (h.filter (fun e => !e.pinned) ++ h.filter (fun e => e.pinned)).Perm h := by
  have := List.filter_append_perm (fun e => !e.pinned) h
  simpa [Bool.not_not] using this

theorem save_entry_trim_subperm (cap : Nat) (h : List ClipboardEntry) :
    (save_entry_trim cap h).Subperm h := by
  unfold save_entry_trim
  split
  · refine ((List.perm_insertionSort tsle _).subperm).trans ?_
    refine List.Subperm.trans ?_ (unpinned_append_pinned_perm h).subperm
    exact ((trim_kept_sublist cap h).append_right _).subperm
  · exact List.Subperm.refl _

theorem mem_save_entry_trim_of_pinned (cap : Nat) {h : List ClipboardEntry}
    {e : ClipboardEntry} (he : e ∈ h) (hp : e.pinned = true) :
    e ∈ save_entry_trim cap h := by
  unfold save_entry_trim
  split
  · rw [(List.perm_insertionSort tsle _).mem_iff]
    exact List.mem_append_right _ (List.mem_filter.mpr ⟨he, hp⟩)
  · exact he

theorem countP_pinned_trim_kept (cap : Nat) (h : List ClipboardEntry) :
    (trim_kept cap h).countP (fun e => e.pinned) = 0 := by
  have h1 := (trim_kept_sublist cap h).countP_le (fun e => e.pinned)
  have h2 : (h.filter (fun e => !e.pinned)).countP (fun e => e.pinned) = 0 := by
    rw [List.countP_filter]
    simp
  omega

theorem countP_pinned_save_entry_trim (cap : Nat) (h : List ClipboardEntry) :
    (save_entry_trim cap h).countP (fun e => e.pinned) = h.countP (fun e => e.pinned) := by
  unfold save_entry_trim
  split
  · rw [((List.perm_insertionSort tsle _)).countP_eq]
    rw [List.countP_append, countP_pinned_trim_kept]
    rw [List.countP_filter]
    simp [List.countP_eq_length_filter]
  · rfl

theorem length_filter_partition (h : List ClipboardEntry) :
    (h.filter (fun e => !e.pinned)).length + (h.filter (fun e => e.pinned)).length = h.length := by
  have := (unpinned_append_pinned_perm h).length_eq
  simpa using this

theorem length_save_entry_trim_of_gt (cap : Nat) (h : List ClipboardEntry)
    (hl : cap < h.length) :
    (save_entry_trim cap h).length = max cap (h.countP (fun e => e.pinned)) := by
  unfold save_entry_trim
  rw [if_pos (by omega)]
  rw [List.length_insertionSort, List.length_append, trim_kept_length]
  have hpart := length_filter_partition h
  rw [List.countP_eq_length_filter]
  omega

theorem pairwise_ne_of_pairwise_lt {h : List ClipboardEntry} (hs : h.Pairwise tslt) :
    h.Pairwise (fun a b => a.timestamp ≠ b.timestamp) :=
  hs.imp (fun hab => Nat.ne_of_lt hab)

theorem ts_ne_symm : ∀ {x y : ClipboardEntry},
    x.timestamp ≠ y.timestamp → y.timestamp ≠ x.timestamp :=
  fun hxy => Ne.symm hxy

theorem pairwise_lt_save_entry_trim (cap : Nat) {h : List ClipboardEntry}
    (hs : h.Pairwise tslt) : (save_entry_trim cap h).Pairwise tslt := by
  unfold save_entry_trim
  split
  · have hle : (List.insertionSort tsle (trim_kept cap h ++ h.filter (fun e => e.pinned))).Pairwise tsle :=
      List.sorted_insertionSort tsle _
    have hne0 : (h.filter (fun e => !e.pinned) ++ h.filter (fun e => e.pinned)).Pairwise
        (fun a b => a.timestamp ≠ b.timestamp) :=
      ((unpinned_append_pinned_perm h).pairwise_iff ts_ne_symm).mpr (pairwise_ne_of_pairwise_lt hs)
    have hne1 : (trim_kept cap h ++ h.filter (fun e => e.pinned)).Pairwise
        (fun a b => a.timestamp ≠ b.timestamp) :=
      hne0.sublist ((trim_kept_sublist cap h).append_right _)
    have hne : (List.insertionSort tsle (trim_kept cap h ++ h.filter (fun e => e.pinned))).Pairwise
        (fun a b => a.timestamp ≠ b.timestamp) :=
      ((List.perm_insertionSort tsle _).pairwise_iff ts_ne_symm).mpr hne1
    refine (hle.and hne).imp ?_
    intro a b hab
    exact Nat.lt_of_le_of_ne hab.1 hab.2
  · exact hs

theorem not_pinned_of_removed (cap : Nat) {h : List ClipboardEntry} {r : ClipboardEntry}
    (hr : r ∈ h) (hnr : r ∉ save_entry_trim cap h) : r.pinned = false := by
  by_cases hp : r.pinned = true
  · exact absurd (mem_save_entry_trim_of_pinned cap hr hp) hnr
  · simpa using hp

theorem save_entry_trim_removed_oldest (cap : Nat) {h : List ClipboardEntry}
    (hs : h.Pairwise tslt) {r : ClipboardEntry} (hr : r ∈ h)
    (hnr : r ∉ save_entry_trim cap h) :
    r.pinned = false ∧
      ∀ k ∈ save_entry_trim cap h, k.pinned = false → r.timestamp < k.timestamp := by
  refine ⟨not_pinned_of_removed cap hr hnr, ?_⟩
  intro k hk hkp
  have hrp : r.pinned = false := not_pinned_of_removed cap hr hnr
  -- the trim must have fired, else r ∈ save_entry_trim cap h
  rcases Nat.lt_or_ge cap h.length with hl | hl
  swap
  · exact absurd (by simpa [save_entry_trim, Nat.not_lt.mpr hl] using hr) hnr
  have htrim : save_entry_trim cap h =
      List.insertionSort tsle (trim_kept cap h ++ h.filter (fun e => e.pinned)) := by
    simp [save_entry_trim, hl]
  -- r is among the dropped prefix of the unpinned entries
  have hrunp : r ∈ h.filter (fun e => !e.pinned) := List.mem_filter.mpr ⟨hr, by simp [hrp]⟩
  have hrnk : r ∉ trim_kept cap h := by
    intro hmem
    apply hnr
    rw [htrim, (List.perm_insertionSort tsle _).mem_iff]
    exact List.mem_append_left _ hmem
  -- k is among the kept unpinned entries
  have hk2 : k ∈ trim_kept cap h ++ h.filter (fun e => e.pinned) := by
    rw [htrim, (List.perm_insertionSort tsle _).mem_iff] at hk
    exact hk
  have hkkept : k ∈ trim_kept cap h := by
    rcases List.mem_append.mp hk2 with hk3 | hk3
    · exact hk3
    · have := (List.mem_filter.mp hk3).2
      rw [hkp] at this
      exact absurd this (by simp)
  -- split the unpinned list as dropped-prefix ++ kept-suffix
  have hunps : (h.filter (fun e => !e.pinned)).Pairwise tslt := hs.filter _
  have hcases : trim_kept cap h = h.filter (fun e => !e.pinned) ∨
      ∃ d, trim_kept cap h = (h.filter (fun e => !e.pinned)).drop d := by
    simp only [trim_kept]
    split
    · exact Or.inr ⟨_, rfl⟩
    · exact Or.inl rfl
  rcases hcases with hd | ⟨d, hd⟩
  · rw [hd] at hrnk
    exact absurd hrunp hrnk
  · have hsplit := List.take_append_drop d (h.filter (fun e => !e.pinned))
    have hpw : ((h.filter (fun e => !e.pinned)).take d ++
        (h.filter (fun e => !e.pinned)).drop d).Pairwise tslt := by
      rw [hsplit]
      exact hunps
    have hcross := (List.pairwise_append.mp hpw).2.2
    have hrtake : r ∈ (h.filter (fun e => !e.pinned)).take d := by
      rw [← hsplit] at hrunp
      rcases List.mem_append.mp hrunp with h1 | h1
      · exact h1
      · rw [← hd] at h1
        exact absurd h1 hrnk
    have hkdrop : k ∈ (h.filter (fun e => !e.pinned)).drop d := by
      rw [← hd]
      exact hkkept
    exact hcross r hrtake k hkdrop

theorem save_entry_eq (cap : Nat) (entry : ClipboardEntry) (h : List ClipboardEntry) :
    save_entry cap entry h =
      save_entry_trim cap (h.filter (fun e => e.content != entry.content) ++
        [⟨entry.timestamp, entry.content,
          ((h.find? (fun e => e.content == entry.content)).map (fun e => e.pinned)).getD false⟩]) :=
  rfl

theorem mem_save_entry (cap : Nat) (entry : ClipboardEntry) (h : List ClipboardEntry)
    {e : ClipboardEntry} (he : e ∈ save_entry cap entry h) :
    e ∈ h.filter (fun x => x.content != entry.content) ∨
      e = ⟨entry.timestamp, entry.content,
        ((h.find? (fun x => x.content == entry.content)).map (fun x => x.pinned)).getD false⟩ := by
  rw [save_entry_eq] at he
  have := (save_entry_trim_subperm cap _).subset he
  rcases List.mem_append.mp this with h1 | h1
  · exact Or.inl h1
  · exact Or.inr (List.mem_singleton.mp h1)

theorem mem_of_mem_save_entry (cap : Nat) (entry : ClipboardEntry) (h : List ClipboardEntry)
    {e : ClipboardEntry} (he : e ∈ save_entry cap entry h) :
    e ∈ h ∨ e = ⟨entry.timestamp, entry.content,
      ((h.find? (fun x => x.content == entry.content)).map (fun x => x.pinned)).getD false⟩ := by
  rcases mem_save_entry cap entry h he with h1 | h1
  · exact Or.inl (List.mem_filter.mp h1).1
  · exact Or.inr h1

theorem eq_pushed_of_mem_save_entry (cap : Nat) (entry : ClipboardEntry)
    (h : List ClipboardEntry) {e : ClipboardEntry} (he : e ∈ save_entry cap entry h)
    (hc : e.content = entry.content) :
    e = ⟨entry.timestamp, entry.content,
      ((h.find? (fun x => x.content == entry.content)).map (fun x => x.pinned)).getD false⟩ := by
  rcases mem_save_entry cap entry h he with h1 | h1
  · have := (List.mem_filter.mp h1).2
    rw [bne_iff_ne] at this
    exact absurd hc this
  · exact h1

theorem countP_self_save_entry (cap : Nat) (entry : ClipboardEntry) (h : List ClipboardEntry) :
    (save_entry cap entry h).countP (fun e => e.content == entry.content) ≤ 1 := by
  rw [save_entry_eq]
  refine le_trans ((save_entry_trim_subperm cap _).countP_le _) ?_
  rw [List.countP_append]
  have h1 : (h.filter (fun e => e.content != entry.content)).countP
      (fun e => e.content == entry.content) = 0 := by
    rw [List.countP_filter]
    simp
  rw [h1]
  simp [List.countP_cons]

theorem mem_of_mem_save_entry_other (cap : Nat) (entry : ClipboardEntry)
    (h : List ClipboardEntry) {c : String} (hc : c ≠ entry.content) {e : ClipboardEntry}
    (he : e ∈ save_entry cap entry h) (hec : e.content = c) : e ∈ h := by
  rcases mem_of_mem_save_entry cap entry h he with h1 | h1
  · exact h1
  · rw [h1] at hec
    exact absurd hec.symm hc

theorem countP_other_save_entry (cap : Nat) (entry : ClipboardEntry)
    (h : List ClipboardEntry) {c : String} (hc : c ≠ entry.content) :
    (save_entry cap entry h).countP (fun e => e.content == c) ≤
      h.countP (fun e => e.content == c) := by
  rw [save_entry_eq]
  refine le_trans ((save_entry_trim_subperm cap _).countP_le _) ?_
  rw [List.countP_append]
  have h1 : List.countP (fun e => e.content == c)
      [(⟨entry.timestamp, entry.content,
        ((h.find? (fun x => x.content == entry.content)).map (fun x => x.pinned)).getD false⟩ :
          ClipboardEntry)] = 0 := by
    simp [List.countP_cons]
    exact fun heq => absurd heq.symm hc
  rw [h1, Nat.add_zero]
  exact (List.filter_sublist h).countP_le _

theorem length_save_entry_le (cap : Nat) (entry : ClipboardEntry) (h : List ClipboardEntry) :
    (save_entry cap entry h).length ≤
      max cap ((save_entry cap entry h).countP (fun e => e.pinned)) := by
  rw [save_entry_eq]
  rcases Nat.lt_or_ge cap (h.filter (fun e => e.content != entry.content) ++
      [(⟨entry.timestamp, entry.content,
        ((h.find? (fun x => x.content == entry.content)).map (fun x => x.pinned)).getD false⟩ :
          ClipboardEntry)]).length with hl | hl
  · rw [length_save_entry_trim_of_gt cap _ hl, countP_pinned_save_entry_trim]
  · rw [save_entry_trim, if_neg (by omega)]
    exact le_trans hl (Nat.le_max_left _ _)

theorem pairwise_lt_save_entry (cap : Nat) (entry : ClipboardEntry)
    {h : List ClipboardEntry} (hs : h.Pairwise tslt)
    (hf : ∀ e ∈ h, e.timestamp < entry.timestamp) :
    (save_entry cap entry h).Pairwise tslt ∧
      ∀ e ∈ save_entry cap entry h, e.timestamp ≤ entry.timestamp := by
  constructor
  · rw [save_entry_eq]
    apply pairwise_lt_save_entry_trim
    rw [List.pairwise_append]
    refine ⟨hs.filter _, List.pairwise_singleton _ _, ?_⟩
    intro a ha b hb
    rw [List.mem_singleton] at hb
    subst hb
    exact hf a (List.mem_filter.mp ha).1
  · intro e he
    rcases mem_of_mem_save_entry cap entry h he with h1 | h1
    · exact Nat.le_of_lt (hf e h1)
    · rw [h1]

theorem recordAll_nil (cap : Nat) (h : List ClipboardEntry) : recordAll cap [] h = h := rfl

theorem recordAll_cons (cap : Nat) (ct : String × Nat) (calls : List (String × Nat))
    (h : List ClipboardEntry) :
    recordAll cap (ct :: calls) h = recordAll cap calls (save_entry cap ⟨ct.2, ct.1, false⟩ h) :=
  rfl

theorem recordAll_append (cap : Nat) (c1 c2 : List (String × Nat)) (h : List ClipboardEntry) :
    recordAll cap (c1 ++ c2) h = recordAll cap c2 (recordAll cap c1 h) := by
  unfold recordAll
  exact List.foldl_append _ _ _ _

theorem recordAll_not_recorded (cap : Nat) (calls : List (String × Nat))
    (h : List ClipboardEntry) {c : String} (hc : ∀ ct ∈ calls, ct.1 ≠ c) :
    (∀ e ∈ recordAll cap calls h, e.content = c → e ∈ h) ∧
      (recordAll cap calls h).countP (fun e => e.content == c) ≤
        h.countP (fun e => e.content == c) := by
  induction calls generalizing h with
  | nil => exact ⟨fun e he _ => he, Nat.le_refl _⟩
  | cons ct rest ih =>
    rw [recordAll_cons]
    have hct : ct.1 ≠ c := hc ct (List.mem_cons_self _ _)
    have hcr : ∀ x ∈ rest, x.1 ≠ c := fun x hx => hc x (List.mem_cons_of_mem _ hx)
    have hne : c ≠ (⟨ct.2, ct.1, false⟩ : ClipboardEntry).content := fun heq => hct heq.symm
    obtain ⟨ihm, ihc⟩ := ih (h := save_entry cap ⟨ct.2, ct.1, false⟩ h) hcr
    refine ⟨?_, ?_⟩
    · intro e he hec
      exact mem_of_mem_save_entry_other cap _ h hne (ihm e he hec) hec
    · exact le_trans ihc (countP_other_save_entry cap _ h hne)

theorem recordAll_pairwise_lt (cap : Nat) (calls : List (String × Nat))
    {h : List ClipboardEntry} (hs : h.Pairwise tslt)
    (hf : ∀ e ∈ h, ∀ ct ∈ calls, e.timestamp < ct.2)
    (hm : calls.Pairwise (fun a b => a.2 < b.2)) :
    (recordAll cap calls h).Pairwise tslt := by
  induction calls generalizing h with
  | nil => exact hs
  | cons ct rest ih =>
    rw [recordAll_cons]
    have hmc := List.pairwise_cons.mp hm
    have hstep := pairwise_lt_save_entry cap ⟨ct.2, ct.1, false⟩ hs
      (fun e he => hf e he ct (List.mem_cons_self _ _))
    refine ih hstep.1 ?_ hmc.2
    intro e he ct' hct'
    have h1 : e.timestamp ≤ ct.2 := hstep.2 e he
    have h2 : ct.2 < ct'.2 := hmc.1 ct' hct'
    omega

theorem recordAll_length_le (cap : Nat) (calls : List (String × Nat))
    {h : List ClipboardEntry} (hcap : h.length ≤ cap) :
    (recordAll cap calls h).length ≤
      max cap ((recordAll cap calls h).countP (fun e => e.pinned)) := by
  rcases List.eq_nil_or_concat calls with hnil | ⟨pre, last, hconcat⟩
  · subst hnil
    exact le_trans hcap (Nat.le_max_left _ _)
  · subst hconcat
    rw [List.concat_eq_append, recordAll_append, recordAll_cons, recordAll_nil]
    exact length_save_entry_le cap _ _

/-- C1: for every sequence of `record(c, t)` calls applied to any starting
store, the resulting store contains at most one entry per distinct
recorded content `c`; writing the sequence as `pre ++ (c, t) :: post`
with `(c, t)` the most recent record call for `c`, any surviving entry
with content `c` carries timestamp `t` and the pinned flag that the
previous entry for `c` carried just before that call removed and
re-inserted it (`false` when no previous entry existed). -/
theorem C1_dedup_invariant (cap : Nat) (pre post : List (String × Nat)) (c : String) (t : Nat)
    (h0 : List ClipboardEntry) (hlast : ∀ ct ∈ post, ct.1 ≠ c) :
    (recordAll cap (pre ++ (c, t) :: post) h0).countP (fun e => e.content == c) ≤ 1 ∧
      ∀ e ∈ recordAll cap (pre ++ (c, t) :: post) h0, e.content = c →
        e = ⟨t, c, carried_pinned (recordAll cap pre h0) c⟩ := by
  have hsplit : recordAll cap (pre ++ (c, t) :: post) h0
      = recordAll cap post (save_entry cap ⟨t, c, false⟩ (recordAll cap pre h0)) := by
    rw [recordAll_append, recordAll_cons]
  obtain ⟨hm, hcnt⟩ := recordAll_not_recorded cap post
    (save_entry cap ⟨t, c, false⟩ (recordAll cap pre h0)) hlast
  rw [hsplit]
  constructor
  · exact le_trans hcnt (countP_self_save_entry cap ⟨t, c, false⟩ (recordAll cap pre h0))
  · intro e he hec
    exact eq_pushed_of_mem_save_entry cap ⟨t, c, false⟩ _ (hm e he hec) hec

/-- Witness for C1 at the spec scenario `record a@1; record a@3; record b@2`
from the empty store. -/
theorem C1_dedup_invariant_witness :
    (∀ ct ∈ [("b", 2)], ct.1 ≠ "a") ∧
      ((recordAll 3 ([("a", 1)] ++ ("a", 3) :: [("b", 2)]) []).countP
          (fun e => e.content == "a") ≤ 1 ∧
        ∀ e ∈ recordAll 3 ([("a", 1)] ++ ("a", 3) :: [("b", 2)]) [], e.content = "a" →
          e = ⟨3, "a", carried_pinned (recordAll 3 [("a", 1)] []) "a"⟩) :=
  ⟨by decide, C1_dedup_invariant 3 [("a", 1)] [("b", 2)] "a" 3 [] (by decide)⟩

set_option maxRecDepth 100000 in
/-- Counterexample to C2 as stated: from a starting store that is within
the cap (200 entries, timestamps 200 down to 1, all unpinned), a single
record call triggers the trim, which drops by list position
(`split_off`), not by timestamp: the entry with timestamp 200 is evicted
while the oldest entry (timestamp 1) is kept, so the unpinned entries
removed under capacity pressure are not the oldest-by-timestamp ones. -/
theorem C2_counterexample :
    c2_store.length ≤ MAX_HISTORY_ENTRIES ∧
      (⟨200, "a", false⟩ : ClipboardEntry) ∈ c2_store ∧
      (⟨1, "a", false⟩ : ClipboardEntry) ∈ c2_store ∧
      (⟨200, "a", false⟩ : ClipboardEntry) ∉ c2_result ∧
      (⟨1, "a", false⟩ : ClipboardEntry) ∈ c2_result := by
  decide

/-- C2 (amended): after any sequence of record calls starting from a store
within the cap whose entries are in strictly increasing timestamp order,
with call timestamps strictly increasing and larger than every timestamp
already in the store, the store length is at most
`max cap pinned_count` and the store stays in strictly increasing
timestamp order; moreover (for every input list) the trim step never
evicts a pinned entry, on a strictly timestamp-sorted list it removes
only unpinned entries each older than every unpinned entry it keeps, and
whenever it fires it leaves exactly `max cap pinned_count` entries. -/
theorem C2_cap_invariant (cap : Nat) (calls : List (String × Nat)) (h0 : List ClipboardEntry)
    (hsorted : h0.Pairwise tslt) (hcap : h0.length ≤ cap)
    (hfresh : ∀ e ∈ h0, ∀ ct ∈ calls, e.timestamp < ct.2)
    (hmono : calls.Pairwise (fun a b => a.2 < b.2)) :
    (recordAll cap calls h0).length ≤
        max cap ((recordAll cap calls h0).countP (fun e => e.pinned)) ∧
      (recordAll cap calls h0).Pairwise tslt ∧
      (∀ h : List ClipboardEntry, ∀ e ∈ h, e.pinned = true → e ∈ save_entry_trim cap h) ∧
      (∀ h : List ClipboardEntry, h.Pairwise tslt →
        ∀ r ∈ h, r ∉ save_entry_trim cap h →
          r.pinned = false ∧
            ∀ k ∈ save_entry_trim cap h, k.pinned = false → r.timestamp < k.timestamp) ∧
      (∀ h : List ClipboardEntry, cap < h.length →
        (save_entry_trim cap h).length = max cap (h.countP (fun e => e.pinned))) := by
  refine ⟨recordAll_length_le cap calls hcap,
    recordAll_pairwise_lt cap calls hsorted hfresh hmono,
    fun h e he hp => mem_save_entry_trim_of_pinned cap he hp,
    fun h hs r hr hnr => save_entry_trim_removed_oldest cap hs hr hnr,
    fun h hl => length_save_entry_trim_of_gt cap h hl⟩

/-- Witness for C2 at cap 3 with records `a@1, b@2, c@3, d@4` from the
empty store (the spec's cap scenario). -/
theorem C2_cap_invariant_witness :
    (([] : List ClipboardEntry).Pairwise tslt ∧
        ([] : List ClipboardEntry).length ≤ 3 ∧
        (∀ e ∈ ([] : List ClipboardEntry),
          ∀ ct ∈ [("a", 1), ("b", 2), ("c", 3), ("d", 4)], e.timestamp < ct.2) ∧
        ([("a", 1), ("b", 2), ("c", 3), ("d", 4)]).Pairwise (fun a b => a.2 < b.2)) ∧
      ((recordAll 3 [("a", 1), ("b", 2), ("c", 3), ("d", 4)] []).length ≤
          max 3 ((recordAll 3 [("a", 1), ("b", 2), ("c", 3), ("d", 4)] []).countP
            (fun e => e.pinned)) ∧
        (recordAll 3 [("a", 1), ("b", 2), ("c", 3), ("d", 4)] []).Pairwise tslt ∧
        (∀ h : List ClipboardEntry, ∀ e ∈ h, e.pinned = true → e ∈ save_entry_trim 3 h) ∧
        (∀ h : List ClipboardEntry, h.Pairwise tslt →
          ∀ r ∈ h, r ∉ save_entry_trim 3 h →
            r.pinned = false ∧
              ∀ k ∈ save_entry_trim 3 h, k.pinned = false → r.timestamp < k.timestamp) ∧
        (∀ h : List ClipboardEntry, 3 < h.length →
          (save_entry_trim 3 h).length = max 3 (h.countP (fun e => e.pinned)))) :=
  ⟨⟨by decide, by decide, by decide, by decide⟩,
    C2_cap_invariant 3 [("a", 1), ("b", 2), ("c", 3), ("d", 4)] [] (by decide) (by decide)
      (by decide) (by decide)⟩

/-- C3: with threshold 400 ms and no pending release, releases at 0 ms and
300 ms fire the trigger exactly once, at 300 ms, and a third rapid
release (360 ms) does not fire against the second — verified on the
global lib.rs channel, the local lib.rs channel and the main.rs rdev
channel.  Releases at 0 ms and 500 ms fire nothing, and on the global
channel and the rdev channel the 500 ms release becomes the new
baseline; the final conjunct shows the code deviating from the claim on
the local lib.rs channel, which leaves `last_option_release = some 0`
instead of `some 500` (the stale baseline then keeps every later
local-only double-tap from firing). -/
theorem C3_gesture_timing :
    (run_flags global_flags_step
        [(true, 0), (false, 0), (true, 100), (false, 300), (true, 350), (false, 360)]
        initGesture).2 = [300] ∧
      (run_flags local_flags_step
        [(true, 0), (false, 0), (true, 100), (false, 300), (true, 350), (false, 360)]
        initGesture).2 = [300] ∧
      (run_rdev [(RdevEvent.keyReleaseAlt, 0), (RdevEvent.keyReleaseAlt, 300)] none).2 = [300] ∧
      run_flags global_flags_step [(true, 0), (false, 0), (true, 450), (false, 500)] initGesture =
        ({ option_was_pressed := false, last_option_release := some 500,
            last_trigger := none }, []) ∧
      run_rdev [(RdevEvent.keyReleaseAlt, 0), (RdevEvent.keyReleaseAlt, 500)] none =
        (some 500, []) ∧
      run_flags local_flags_step [(true, 0), (false, 0), (true, 450), (false, 500)] initGesture =
        ({ option_was_pressed := false, last_option_release := some 0,
            last_trigger := none }, []) := by
  decide

/-- Counterexample to C4: a non-modifier key press at 100 ms between
qualifying Alt releases at 0 ms and 300 ms (within the 400 ms threshold)
does not prevent the trigger — the detector fires at 300 ms, whereas the
claim says no trigger fires. -/
theorem C4_counterexample :
    (run_rdev [(RdevEvent.keyReleaseAlt, 0), (RdevEvent.keyPressOther, 100),
        (RdevEvent.keyReleaseAlt, 300)] none).2 = [300] ∧
      300 - 0 < DOUBLE_TAP_THRESHOLD_MS ∧ ([300] : List Nat) ≠ [] := by
  decide

/-- C4 (amended): every event other than an Alt/AltGr release — including
non-modifier key presses — leaves the detector state untouched and fires
nothing (it does not clear the pending `last_alt_release`), and the
trigger consequently still fires on the second of two qualifying
releases even with a non-modifier key press between them. -/
theorem C4_other_keys_ignored :
    (∀ (last : Option Nat) (ev : RdevEvent) (t : Nat), ev ≠ RdevEvent.keyReleaseAlt →
        rdev_callback_step last ev t = (last, false)) ∧
      ∀ t1 tp t2 : Nat, t2 - t1 < DOUBLE_TAP_THRESHOLD_MS →
        (run_rdev [(RdevEvent.keyReleaseAlt, t1), (RdevEvent.keyPressOther, tp),
          (RdevEvent.keyReleaseAlt, t2)] none).2 = [t2] := by
  constructor
  · intro last ev t hev
    cases ev
    · exact absurd rfl hev
    all_goals rfl
  · intro t1 tp t2 hlt
    simp [run_rdev, rdev_callback_step, hlt]

/-- Witness for C4 (amended) at a concrete other-key event and the
release/press/release stream 0 ms / 100 ms / 300 ms. -/
theorem C4_other_keys_ignored_witness :
    (RdevEvent.keyPressOther ≠ RdevEvent.keyReleaseAlt ∧
        rdev_callback_step (some 5) RdevEvent.keyPressOther 9 = (some 5, false)) ∧
      (300 - 0 < DOUBLE_TAP_THRESHOLD_MS ∧
        (run_rdev [(RdevEvent.keyReleaseAlt, 0), (RdevEvent.keyPressOther, 100),
          (RdevEvent.keyReleaseAlt, 300)] none).2 = [300]) :=
  ⟨⟨by decide, C4_other_keys_ignored.1 (some 5) RdevEvent.keyPressOther 9 (by decide)⟩,
    ⟨by decide, C4_other_keys_ignored.2 0 100 300 (by decide)⟩⟩

theorem load_some_cons_readError (ls : List FileLine) :
    load_history (some (FileLine.readError :: ls)) = [] := rfl

theorem load_some_cons_malformed (ls : List FileLine) :
    load_history (some (FileLine.malformed :: ls)) = load_history (some ls) := by
  simp [load_history, FileLine.readable, parse_line, List.filterMap_cons]

theorem load_some_cons_record (e : ClipboardEntry) (ls : List FileLine) :
    load_history (some (FileLine.record e :: ls)) = e :: load_history (some ls) := by
  simp [load_history, FileLine.readable, parse_line, List.filterMap_cons]

theorem load_main_some_cons (a : FileLine) (ls : List FileLine) :
    load_history_main (some (a :: ls)) =
      (parse_line a).toList ++ load_history_main (some ls) := by
  cases a <;>
    simp [load_history_main, parse_line, FileLine.readable, List.filter_cons,
      List.filterMap_cons]

theorem load_history_save_history (h : List ClipboardEntry) :
    load_history (save_history h) = h := by
  induction h with
  | nil => rfl
  | cons e t ih =>
    show load_history (some (FileLine.record e :: t.map FileLine.record)) = e :: t
    rw [load_some_cons_record]
    exact congrArg (e :: ·) ih

/-- C5: for every store state, `clear_all_history` followed by `load`
returns exactly the pinned subset of entries that existed before, in
their original relative order (the filter of the loaded list); when no
pinned entry exists the log file is deleted (`none`), so a subsequent
`load` returns the empty sequence. -/
theorem C5_pin_survives_clear (fs : FileState) :
    load_history (clear_all_history fs) = (load_history fs).filter (fun e => e.pinned) ∧
      ((load_history fs).filter (fun e => e.pinned) = [] → clear_all_history fs = none) := by
  constructor
  · unfold clear_all_history
    by_cases hemp : ((load_history fs).filter (fun e => e.pinned)).isEmpty
    · rw [if_pos hemp]
      rw [List.isEmpty_iff] at hemp
      rw [hemp]
      rfl
    · rw [if_neg hemp]
      exact load_history_save_history _
  · intro hnil
    unfold clear_all_history
    rw [if_pos (List.isEmpty_iff.mpr hnil)]

/-- Witness for C5 on a store holding a single unpinned entry: the file is
deleted. -/
theorem C5_pin_survives_clear_witness :
    (load_history (some [FileLine.record ⟨1, "a", false⟩])).filter (fun e => e.pinned) = [] ∧
      clear_all_history (some [FileLine.record ⟨1, "a", false⟩]) = none :=
  ⟨by decide, (C5_pin_survives_clear (some [FileLine.record ⟨1, "a", false⟩])).2 (by decide)⟩

/-- Counterexample to C6 as stated: in the lib.rs loader,
`map_while(Result::ok)` stops at the first line whose read fails, so
the well-formed sibling line `b@2` after an unreadable line is not
returned, even though the claim says every well-formed sibling line is
still returned. -/
theorem C6_counterexample :
    load_history (some [FileLine.record ⟨1, "a", false⟩, FileLine.readError,
        FileLine.record ⟨2, "b", false⟩]) = [⟨1, "a", false⟩] ∧
      (⟨2, "b", false⟩ : ClipboardEntry) ∉
        load_history (some [FileLine.record ⟨1, "a", false⟩, FileLine.readError,
          FileLine.record ⟨2, "b", false⟩]) := by
  decide

/-- C6 (amended): `load_history` never fails the caller — a missing or
unopenable log yields the empty sequence; a line that reads but fails
to parse as a `ClipboardEntry` is skipped silently wherever it sits,
never changing the result; a well-formed line whose predecessors all
read successfully is returned between its siblings' results; and a
line whose read itself fails ends the read, so exactly the well-formed
lines before the first read error are returned.  The main.rs loader
instead skips unreadable lines individually: there a well-formed line
is always returned between its siblings' results and removing any
non-parsing line never changes the result. -/
theorem C6_load_never_fails :
    load_history none = [] ∧
      (∀ ls1 ls2 : List FileLine,
        load_history (some (ls1 ++ FileLine.malformed :: ls2)) =
          load_history (some (ls1 ++ ls2))) ∧
      (∀ (ls1 ls2 : List FileLine) (e : ClipboardEntry), (∀ l ∈ ls1, l.readable = true) →
        load_history (some (ls1 ++ FileLine.record e :: ls2)) =
          load_history (some ls1) ++ e :: load_history (some ls2)) ∧
      (∀ ls1 ls2 : List FileLine, (∀ l ∈ ls1, l.readable = true) →
        load_history (some (ls1 ++ FileLine.readError :: ls2)) = load_history (some ls1)) ∧
      (∀ (ls1 ls2 : List FileLine) (e : ClipboardEntry),
        load_history_main (some (ls1 ++ FileLine.record e :: ls2)) =
          load_history_main (some ls1) ++ e :: load_history_main (some ls2)) ∧
      ∀ (ls1 ls2 : List FileLine) (l : FileLine), parse_line l = none →
        load_history_main (some (ls1 ++ l :: ls2)) = load_history_main (some (ls1 ++ ls2)) := by
  refine ⟨rfl, ?_, ?_, ?_, ?_, ?_⟩
  · intro ls1 ls2
    induction ls1 with
    | nil => rw [List.nil_append, List.nil_append, load_some_cons_malformed]
    | cons a t ih =>
      cases a with
      | readError =>
        rw [List.cons_append, List.cons_append, load_some_cons_readError,
          load_some_cons_readError]
      | malformed =>
        rw [List.cons_append, List.cons_append, load_some_cons_malformed,
          load_some_cons_malformed, ih]
      | record e =>
        rw [List.cons_append, List.cons_append, load_some_cons_record,
          load_some_cons_record, ih]
  · intro ls1 ls2 e h
    induction ls1 with
    | nil =>
      rw [List.nil_append, load_some_cons_record]
      rfl
    | cons a t ih =>
      have ht : ∀ l ∈ t, l.readable = true := fun l hl => h l (List.mem_cons_of_mem _ hl)
      cases a with
      | readError => exact absurd (h _ (List.mem_cons_self _ _)) (by simp [FileLine.readable])
      | malformed =>
        rw [List.cons_append, load_some_cons_malformed, load_some_cons_malformed, ih ht]
      | record e2 =>
        rw [List.cons_append, load_some_cons_record, load_some_cons_record, ih ht,
          List.cons_append]
  · intro ls1 ls2 h
    induction ls1 with
    | nil => rfl
    | cons a t ih =>
      have ht : ∀ l ∈ t, l.readable = true := fun l hl => h l (List.mem_cons_of_mem _ hl)
      cases a with
      | readError => exact absurd (h _ (List.mem_cons_self _ _)) (by simp [FileLine.readable])
      | malformed =>
        rw [List.cons_append, load_some_cons_malformed, load_some_cons_malformed, ih ht]
      | record e2 =>
        rw [List.cons_append, load_some_cons_record, load_some_cons_record, ih ht]
  · intro ls1 ls2 e
    induction ls1 with
    | nil =>
      rw [List.nil_append, load_main_some_cons]
      rfl
    | cons a t ih =>
      rw [List.cons_append, load_main_some_cons, load_main_some_cons, ih,
        List.append_assoc]
  · intro ls1 ls2 l hl
    induction ls1 with
    | nil =>
      rw [List.nil_append, List.nil_append, load_main_some_cons, hl]
      rfl
    | cons a t ih =>
      rw [List.cons_append, List.cons_append, load_main_some_cons, load_main_some_cons, ih]

/-- Witness for C6 (amended) on concrete files: a well-formed line after
a readable prefix is returned between its siblings, and a read error
after the same prefix truncates the result there. -/
theorem C6_load_never_fails_witness :
    (∀ l ∈ [FileLine.record ⟨1, "a", false⟩], l.readable = true) ∧
      load_history (some ([FileLine.record ⟨1, "a", false⟩] ++
          FileLine.record ⟨2, "b", false⟩ :: [FileLine.malformed])) =
        load_history (some [FileLine.record ⟨1, "a", false⟩]) ++
          (⟨2, "b", false⟩ : ClipboardEntry) :: load_history (some [FileLine.malformed]) ∧
      load_history (some ([FileLine.record ⟨1, "a", false⟩] ++
          FileLine.readError :: [FileLine.record ⟨2, "b", false⟩])) =
        load_history (some [FileLine.record ⟨1, "a", false⟩]) :=
  ⟨by decide,
    C6_load_never_fails.2.2.1 [FileLine.record ⟨1, "a", false⟩] [FileLine.malformed]
      ⟨2, "b", false⟩ (by decide),
    C6_load_never_fails.2.2.2.1 [FileLine.record ⟨1, "a", false⟩]
      [FileLine.record ⟨2, "b", false⟩] (by decide)⟩

theorem set_pin_first_eq_map (key : Nat) (p : Bool) (l : List ClipboardEntry)
    (huniq : l.countP (fun e => e.timestamp == key) ≤ 1) :
    set_pin_first key p l =
      l.map (fun e => if e.timestamp = key then { e with pinned := p } else e) := by
  induction l with
  | nil => rfl
  | cons a t ih =>
    rw [List.countP_cons] at huniq
    by_cases ha : a.timestamp = key
    · have h0 : t.countP (fun e => e.timestamp == key) = 0 := by
        simp only [ha] at huniq
        simp at huniq
        exact List.countP_eq_zero.mpr (fun e he => by simpa using huniq e he)
      have hnone : ∀ e ∈ t, e.timestamp ≠ key := by
        intro e he
        have := List.countP_eq_zero.mp h0 e he
        simpa using this
      have hmap : t.map (fun e => if e.timestamp = key then { e with pinned := p } else e) = t := by
        calc t.map (fun e => if e.timestamp = key then { e with pinned := p } else e)
            = t.map id := List.map_congr_left (fun e he => by rw [if_neg (hnone e he)]; rfl)
          _ = t := List.map_id t
      simp [set_pin_first, ha, hmap]
    · have ht : t.countP (fun e => e.timestamp == key) ≤ 1 := by
        by_cases hb : (a.timestamp == key) = true
        · exact absurd (by simpa using hb) ha
        · simp [hb] at huniq
          omega
      simp [set_pin_first, ha, ih ht]

/-- C7: assuming at most one stored entry matches the timestamp key (the
key is the unique identity), `toggle_pin` returns the `Entry not found`
error if and only if no stored entry has that timestamp identity, the
persisted store is unchanged in the error case, and when the entry
exists the command persists the store with exactly that entry's pinned
flag set to the requested value and everything else unchanged. -/
theorem C7_toggle_pin (fs : FileState) (key : Nat) (p : Bool)
    (huniq : (load_history fs).countP (fun e => e.timestamp == key) ≤ 1) :
    ((toggle_pin key p fs).2 = Except.error "Entry not found" ↔
        ∀ e ∈ load_history fs, e.timestamp ≠ key) ∧
      ((toggle_pin key p fs).2 = Except.error "Entry not found" → (toggle_pin key p fs).1 = fs) ∧
      ((∃ e ∈ load_history fs, e.timestamp = key) →
        toggle_pin key p fs =
          (save_history ((load_history fs).map
            (fun e => if e.timestamp = key then { e with pinned := p } else e)),
            Except.ok ())) := by
  unfold toggle_pin
  by_cases hany : (load_history fs).any (fun e => e.timestamp == key)
  · rw [if_pos hany]
    refine ⟨?_, ?_, ?_⟩
    · constructor
      · intro hcontra
        exact absurd hcontra (by simp)
      · intro hall
        rcases List.any_eq_true.mp hany with ⟨e, he, hbe⟩
        exact absurd (by simpa using hbe) (hall e he)
    · intro hcontra
      exact absurd hcontra (by simp)
    · intro _
      rw [set_pin_first_eq_map key p _ huniq]
  · rw [if_neg hany]
    refine ⟨?_, fun _ => rfl, ?_⟩
    · constructor
      · intro _ e he hkey
        exact hany (List.any_eq_true.mpr ⟨e, he, by simpa using hkey⟩)
      · intro _
        rfl
    · intro ⟨e, he, hkey⟩
      exact absurd (List.any_eq_true.mpr ⟨e, he, by simpa using hkey⟩) hany

/-- Witness for C7 on a two-entry store, pinning the entry with
timestamp 2. -/
theorem C7_toggle_pin_witness :
    ((load_history (some [FileLine.record ⟨1, "a", false⟩, FileLine.record ⟨2, "b", false⟩])).countP
        (fun e => e.timestamp == 2) ≤ 1 ∧
      (∃ e ∈ load_history (some [FileLine.record ⟨1, "a", false⟩, FileLine.record ⟨2, "b", false⟩]),
        e.timestamp = 2)) ∧
      toggle_pin 2 true (some [FileLine.record ⟨1, "a", false⟩, FileLine.record ⟨2, "b", false⟩]) =
        (save_history ((load_history (some [FileLine.record ⟨1, "a", false⟩, FileLine.record ⟨2, "b", false⟩])).map
          (fun e => if e.timestamp = 2 then { e with pinned := true } else e)),
          Except.ok ()) :=
  ⟨⟨by decide, ⟨⟨2, "b", false⟩, by decide, rfl⟩⟩,
    (C7_toggle_pin (some [FileLine.record ⟨1, "a", false⟩, FileLine.record ⟨2, "b", false⟩]) 2 true (by decide)).2.2
      ⟨⟨2, "b", false⟩, by decide, rfl⟩⟩

/-- C8: in every iteration of the clipboard watcher, a failed read and an
empty clipboard read are both ignored — the state (including
`last_content` and the store) is unchanged, so the previous non-empty
content remains the comparison baseline; when new non-empty content is
detected, `last_content` is set to it regardless of whether the save
succeeded, and the store is updated exactly when the save succeeded. -/
theorem C8_monitor_iteration (cap : Nat) (s : MonitorState) (save_ok : Bool) (now : Nat) :
    monitor_step cap none save_ok now s = s ∧
      monitor_step cap (some "") save_ok now s = s ∧
      ∀ current : String, current.isEmpty = false → s.last_content ≠ some current →
        (monitor_step cap (some current) save_ok now s).last_content = some current ∧
          (monitor_step cap (some current) save_ok now s).store =
            (if save_ok then save_entry cap ⟨now, current, false⟩ s.store else s.store) := by
  refine ⟨rfl, ?_, ?_⟩
  · have hempty : ("" : String).isEmpty = true := by decide
    simp [monitor_step, hempty]
  · intro current hemp hnew
    cases hsl : s.last_content with
    | none => simp [monitor_step, hsl, hemp]
    | some last =>
      have hbne : (last != current) = true := by
        rw [bne_iff_ne]
        intro heq
        rw [hsl, heq] at hnew
        exact hnew rfl
      simp [monitor_step, hsl, hemp, hbne]

/-- Witness for C8: new content `"y"` over baseline `"x"` with a failing
save still updates `last_content`. -/
theorem C8_monitor_iteration_witness :
    (("y" : String).isEmpty = false ∧
        (⟨some "x", []⟩ : MonitorState).last_content ≠ some "y") ∧
      (monitor_step 3 (some "y") false 7 ⟨some "x", []⟩).last_content = some "y" ∧
      (monitor_step 3 (some "y") false 7 ⟨some "x", []⟩).store =
        (if false then save_entry 3 ⟨7, "y", false⟩ ([] : List ClipboardEntry) else []) :=
  ⟨⟨rfl, by decide⟩,
    (C8_monitor_iteration 3 ⟨some "x", []⟩ false 7).2.2 "y" rfl (by decide)⟩

/-- C9: `get_history` returns the stored entries in most-recent-first
order — the exact reverse of chronological storage order, hence a
permutation that adds, drops and modifies nothing — together with
`max_entries` equal to the configured cap constant; a
timestamp-ascending store yields timestamp-descending entries. -/
theorem C9_get_history (fs : FileState) :
    (get_history fs).entries = (load_history fs).reverse ∧
      (get_history fs).entries.Perm (load_history fs) ∧
      (get_history fs).max_entries = MAX_HISTORY_ENTRIES ∧
      ((load_history fs).Pairwise tsle ↔
        (get_history fs).entries.Pairwise (fun a b => tsle b a)) :=
  ⟨rfl, List.reverse_perm _, rfl, List.pairwise_reverse.symm⟩

/-- C10: `save_entry` ignores the pinned flag of the entry passed in by
the caller (the stored flag comes solely from a pre-existing entry with
identical content), so when the content is not already in the store the
newly stored entry is unpinned even if the caller supplied
`pinned = true`. -/
theorem C10_caller_pin_ignored (cap : Nat) (entry : ClipboardEntry) (h : List ClipboardEntry)
    (hnew : ∀ e ∈ h, e.content ≠ entry.content) :
    (∀ b1 b2 : Bool,
        save_entry cap { entry with pinned := b1 } h =
          save_entry cap { entry with pinned := b2 } h) ∧
      ∀ e ∈ save_entry cap entry h, e.content = entry.content → e.pinned = false := by
  constructor
  · intro b1 b2
    rfl
  · intro e he hc
    have hfind : h.find? (fun x => x.content == entry.content) = none :=
      List.find?_eq_none.mpr (fun x hx => by simpa using hnew x hx)
    have := eq_pushed_of_mem_save_entry cap entry h he hc
    rw [hfind] at this
    rw [this]
    rfl

/-- Witness for C10: recording `b` with caller-supplied `pinned := true`
into a store without `b` yields an unpinned entry. -/
theorem C10_caller_pin_ignored_witness :
    (∀ e ∈ [(⟨1, "a", true⟩ : ClipboardEntry)], e.content ≠ "b") ∧
      (save_entry 3 ⟨2, "b", true⟩ [⟨1, "a", true⟩] =
          save_entry 3 ⟨2, "b", false⟩ [⟨1, "a", true⟩]) ∧
      ∀ e ∈ save_entry 3 ⟨2, "b", true⟩ [⟨1, "a", true⟩], e.content = "b" →
        e.pinned = false :=
  ⟨by decide,
    (C10_caller_pin_ignored 3 ⟨2, "b", true⟩ [⟨1, "a", true⟩] (by decide)).1 true false,
    (C10_caller_pin_ignored 3 ⟨2, "b", true⟩ [⟨1, "a", true⟩] (by decide)).2⟩
